import Mathlib

/-
Verification development for the coursework repository AA_practicas.

The core under verification is the two-layer neural network of
Practica5/p5/nn.py (feed_forward, cost, backprop, gradient, backprop_min)
together with the logistic sigmoid of Practica4/p4/logistic_reg.py.

Matrices are embedded as `Matrix (Fin r) (Fin c) ℝ`; numpy's float64
arithmetic is modelled by real arithmetic.  The per-example accumulation
loop of `backprop` is embedded as a fold over an explicit state record
(`BPState`) holding every array that is in scope in the Python loop body,
so that frame properties (which arrays the loop writes) are expressible.
-/

open BigOperators

namespace NN

/-- Embedding of `sigmoid` from Practica4/p4/logistic_reg.py:
`g = 1 / (1 + (np.e ** -z))`. -/
noncomputable def sigmoid (z : ℝ) : ℝ := 1 / (1 + Real.exp (-z))

lemma sigmoid_denom_pos (z : ℝ) : 0 < 1 + Real.exp (-z) := by
  have := Real.exp_pos (-z); linarith

lemma sigmoid_pos (z : ℝ) : 0 < sigmoid z := by
  unfold sigmoid
  exact div_pos one_pos (sigmoid_denom_pos z)

lemma sigmoid_lt_one (z : ℝ) : sigmoid z < 1 := by
  unfold sigmoid
  rw [div_lt_one (sigmoid_denom_pos z)]
  have := Real.exp_pos (-z); linarith

lemma sigmoid_zero : sigmoid 0 = 1 / 2 := by
  unfold sigmoid
  rw [neg_zero, Real.exp_zero]
  norm_num

lemma sigmoid_strictMono {z1 z2 : ℝ} (hz : z1 < z2) : sigmoid z1 < sigmoid z2 := by
  unfold sigmoid
  have hexp : Real.exp (-z2) < Real.exp (-z1) := Real.exp_lt_exp.mpr (by linarith)
  exact one_div_lt_one_div_of_lt (sigmoid_denom_pos z2) (by linarith)

/-- C7: the sigmoid computes `1 / (1 + e^-z)`, maps every real into the open
interval (0,1), equals exactly 0.5 at 0, and is strictly monotonically
increasing. -/
theorem sigmoid_spec :
    (∀ z : ℝ, sigmoid z = 1 / (1 + Real.exp (-z))) ∧
    (∀ z : ℝ, 0 < sigmoid z ∧ sigmoid z < 1) ∧
    sigmoid 0 = 0.5 ∧
    (∀ z1 z2 : ℝ, z1 < z2 → sigmoid z1 < sigmoid z2) := by
  refine ⟨fun z => rfl, fun z => ⟨sigmoid_pos z, sigmoid_lt_one z⟩, ?_, ?_⟩
  · rw [sigmoid_zero]; norm_num
  · exact fun z1 z2 hz => sigmoid_strictMono hz

/-- Witness for C7 at the concrete inputs 0 and 1. -/
theorem sigmoid_spec_witness :
    (0 : ℝ) < 1 ∧ 0 < sigmoid 1 ∧ sigmoid 1 < 1 ∧
      sigmoid 0 = 0.5 ∧ sigmoid 0 < sigmoid 1 :=
  ⟨by norm_num, (sigmoid_spec.2.1 1).1, (sigmoid_spec.2.1 1).2,
    sigmoid_spec.2.2.1, sigmoid_spec.2.2.2 0 1 (by norm_num)⟩

/-- Element-wise sigmoid on a matrix (numpy broadcasts `sigmoid` over arrays). -/
noncomputable def sigmoidM {a b : ℕ} (Z : Matrix (Fin a) (Fin b) ℝ) :
    Matrix (Fin a) (Fin b) ℝ :=
  fun i j => sigmoid (Z i j)

/-- Embedding of `np.column_stack([np.ones((m, 1)), X])`: a column of ones
prepended to `X`. -/
def addOnes {m n : ℕ} (X : Matrix (Fin m) (Fin n) ℝ) :
    Matrix (Fin m) (Fin (n + 1)) ℝ :=
  fun i => Fin.cons 1 (X i)

/-- Embedding of `feed_forward` from Practica5/p5/nn.py.  Returns
`(a3, a2, a1)` in the order of the Python `return` statement. -/
noncomputable def feed_forward {m inp hid outp : ℕ}
    (theta1 : Matrix (Fin hid) (Fin (inp + 1)) ℝ)
    (theta2 : Matrix (Fin outp) (Fin (hid + 1)) ℝ)
    (X : Matrix (Fin m) (Fin inp) ℝ) :
    Matrix (Fin m) (Fin outp) ℝ × Matrix (Fin m) (Fin (hid + 1)) ℝ ×
      Matrix (Fin m) (Fin (inp + 1)) ℝ :=
  let a1 := addOnes X
  let z2 := a1 * theta1.transpose
  let a2 := addOnes (sigmoidM z2)
  let z3 := a2 * theta2.transpose
  let a3 := sigmoidM z3
  (a3, a2, a1)

lemma feed_forward_a1 {m inp hid outp : ℕ}
    (theta1 : Matrix (Fin hid) (Fin (inp + 1)) ℝ)
    (theta2 : Matrix (Fin outp) (Fin (hid + 1)) ℝ)
    (X : Matrix (Fin m) (Fin inp) ℝ) :
    (feed_forward theta1 theta2 X).2.2 = addOnes X := rfl

lemma feed_forward_a2 {m inp hid outp : ℕ}
    (theta1 : Matrix (Fin hid) (Fin (inp + 1)) ℝ)
    (theta2 : Matrix (Fin outp) (Fin (hid + 1)) ℝ)
    (X : Matrix (Fin m) (Fin inp) ℝ) :
    (feed_forward theta1 theta2 X).2.1 =
      addOnes (sigmoidM (addOnes X * theta1.transpose)) := rfl

lemma feed_forward_a3 {m inp hid outp : ℕ}
    (theta1 : Matrix (Fin hid) (Fin (inp + 1)) ℝ)
    (theta2 : Matrix (Fin outp) (Fin (hid + 1)) ℝ)
    (X : Matrix (Fin m) (Fin inp) ℝ) :
    (feed_forward theta1 theta2 X).1 =
      sigmoidM (addOnes (sigmoidM (addOnes X * theta1.transpose)) *
        theta2.transpose) := rfl

/-- C4: feed_forward returns `(a3, a2, a1)` where `a1` is `X` with a ones
column prepended (shape m×(n+1) by its type), `a2` is `sigmoid(a1·θ1ᵀ)` with
a ones column prepended (shape m×(h+1)), and `a3 = sigmoid(a2·θ2ᵀ)` (shape
m×k).  The shape laws are carried by the return types; the equations below
state every entry of the three activation matrices. -/
theorem feed_forward_spec {m inp hid outp : ℕ}
    (theta1 : Matrix (Fin hid) (Fin (inp + 1)) ℝ)
    (theta2 : Matrix (Fin outp) (Fin (hid + 1)) ℝ)
    (X : Matrix (Fin m) (Fin inp) ℝ) :
    (∀ i, (feed_forward theta1 theta2 X).2.2 i 0 = 1) ∧
    (∀ i (j : Fin inp), (feed_forward theta1 theta2 X).2.2 i j.succ = X i j) ∧
    (∀ i, (feed_forward theta1 theta2 X).2.1 i 0 = 1) ∧
    (∀ i (j : Fin hid), (feed_forward theta1 theta2 X).2.1 i j.succ =
      sigmoid (∑ p, (feed_forward theta1 theta2 X).2.2 i p * theta1 j p)) ∧
    (∀ i (j : Fin outp), (feed_forward theta1 theta2 X).1 i j =
      sigmoid (∑ p, (feed_forward theta1 theta2 X).2.1 i p * theta2 j p)) := by
  refine ⟨fun i => rfl, fun i j => ?_, fun i => rfl, fun i j => ?_, fun i j => ?_⟩
  · simp [feed_forward_a1, addOnes]
  · rw [feed_forward_a1, feed_forward_a2]
    show sigmoid ((addOnes X * theta1.transpose) i j) = _
    rw [Matrix.mul_apply]
    simp [Matrix.transpose_apply, mul_comm]
  · rw [feed_forward_a2, feed_forward_a3]
    show sigmoid ((addOnes (sigmoidM (addOnes X * theta1.transpose)) *
      theta2.transpose) i j) = _
    rw [Matrix.mul_apply]
    simp [Matrix.transpose_apply, mul_comm]

/-- Embedding of `cost` from Practica5/p5/nn.py: the cross-entropy sum over
all entries, negated and divided by `m`, plus the regularization term built
from the squares of the non-bias columns of both weight matrices. -/
noncomputable def cost {m inp hid outp : ℕ}
    (theta1 : Matrix (Fin hid) (Fin (inp + 1)) ℝ)
    (theta2 : Matrix (Fin outp) (Fin (hid + 1)) ℝ)
    (X : Matrix (Fin m) (Fin inp) ℝ)
    (y : Matrix (Fin m) (Fin outp) ℝ)
    (lambda_ : ℝ) : ℝ :=
  let h0 := (feed_forward theta1 theta2 X).1
  let c := ∑ i, ∑ j, (y i j * Real.log (h0 i j) +
    (1 - y i j) * Real.log (1 - h0 i j))
  let reg_factor := (∑ i, ∑ j : Fin inp, (theta1 i j.succ) ^ 2) +
    (∑ i, ∑ j : Fin hid, (theta2 i j.succ) ^ 2)
  (-c / (m : ℝ)) + (lambda_ * reg_factor / (2 * (m : ℝ)))

/-- C2: for m ≥ 1 and final-layer output strictly inside (0,1), the cost is
exactly `-(1/m)·Σ [Y·ln h + (1-Y)·ln(1-h)]` plus
`(λ/(2m))·(Σ θ1[:,1:]² + Σ θ2[:,1:]²)`, the bias columns excluded. -/
theorem cost_formula {m inp hid outp : ℕ}
    (theta1 : Matrix (Fin hid) (Fin (inp + 1)) ℝ)
    (theta2 : Matrix (Fin outp) (Fin (hid + 1)) ℝ)
    (X : Matrix (Fin m) (Fin inp) ℝ)
    (y : Matrix (Fin m) (Fin outp) ℝ)
    (lambda_ : ℝ)
    (hm : 0 < m)
    (hh : ∀ i j, 0 < (feed_forward theta1 theta2 X).1 i j ∧
      (feed_forward theta1 theta2 X).1 i j < 1) :
    cost theta1 theta2 X y lambda_ =
      -(1 / (m : ℝ)) * (∑ i, ∑ j,
          (y i j * Real.log ((feed_forward theta1 theta2 X).1 i j) +
           (1 - y i j) * Real.log (1 - (feed_forward theta1 theta2 X).1 i j))) +
        (lambda_ / (2 * (m : ℝ))) *
          ((∑ i, ∑ j : Fin inp, (theta1 i j.succ) ^ 2) +
           (∑ i, ∑ j : Fin hid, (theta2 i j.succ) ^ 2)) := by
  unfold cost
  ring

/-- Witness for C2: a 1-example network with zero weights, whose prediction
is sigmoid 0 = 1/2, strictly inside (0,1). -/
theorem cost_formula_witness :
    (0 < 1 ∧ (∀ i j, 0 < (feed_forward (0 : Matrix (Fin 1) (Fin 2) ℝ)
        (0 : Matrix (Fin 1) (Fin 2) ℝ) !![(0 : ℝ)]).1 i j ∧
      (feed_forward (0 : Matrix (Fin 1) (Fin 2) ℝ)
        (0 : Matrix (Fin 1) (Fin 2) ℝ) !![(0 : ℝ)]).1 i j < 1)) ∧
    cost (0 : Matrix (Fin 1) (Fin 2) ℝ) (0 : Matrix (Fin 1) (Fin 2) ℝ)
        !![(0 : ℝ)] !![(1 : ℝ)] 0 =
      -(1 / ((1 : ℕ) : ℝ)) * (∑ i, ∑ j,
          (!![(1 : ℝ)] i j * Real.log ((feed_forward (0 : Matrix (Fin 1) (Fin 2) ℝ)
              (0 : Matrix (Fin 1) (Fin 2) ℝ) !![(0 : ℝ)]).1 i j) +
           (1 - !![(1 : ℝ)] i j) * Real.log (1 - (feed_forward
              (0 : Matrix (Fin 1) (Fin 2) ℝ)
              (0 : Matrix (Fin 1) (Fin 2) ℝ) !![(0 : ℝ)]).1 i j))) +
        ((0 : ℝ) / (2 * ((1 : ℕ) : ℝ))) *
          ((∑ i, ∑ j : Fin 1, ((0 : Matrix (Fin 1) (Fin 2) ℝ) i j.succ) ^ 2) +
           (∑ i, ∑ j : Fin 1, ((0 : Matrix (Fin 1) (Fin 2) ℝ) i j.succ) ^ 2)) := by
  have hh : ∀ i j, 0 < (feed_forward (0 : Matrix (Fin 1) (Fin 2) ℝ)
      (0 : Matrix (Fin 1) (Fin 2) ℝ) !![(0 : ℝ)]).1 i j ∧
      (feed_forward (0 : Matrix (Fin 1) (Fin 2) ℝ)
        (0 : Matrix (Fin 1) (Fin 2) ℝ) !![(0 : ℝ)]).1 i j < 1 :=
    fun i j => ⟨sigmoid_pos _, sigmoid_lt_one _⟩
  exact ⟨⟨Nat.one_pos, hh⟩,
    cost_formula (0 : Matrix (Fin 1) (Fin 2) ℝ) (0 : Matrix (Fin 1) (Fin 2) ℝ)
      !![(0 : ℝ)] !![(1 : ℝ)] 0 Nat.one_pos hh⟩

/-- Modelled from the spec: the clamping policy of §7 — predictions are
clamped into the closed interval [1e-12, 1 - 1e-12]. -/
noncomputable def clampUnit (x : ℝ) : ℝ :=
  max (1 / 10 ^ 12) (min (1 - 1 / 10 ^ 12) x)

/-- Modelled from the spec: the cost function as the spec's §7 policy
requires it — identical to `cost` except that every prediction entry is
passed through `clampUnit` before the logarithms are taken.  The source
`cost` has no such clamping; this definition exists to compare the two. -/
noncomputable def costClamped {m inp hid outp : ℕ}
    (theta1 : Matrix (Fin hid) (Fin (inp + 1)) ℝ)
    (theta2 : Matrix (Fin outp) (Fin (hid + 1)) ℝ)
    (X : Matrix (Fin m) (Fin inp) ℝ)
    (y : Matrix (Fin m) (Fin outp) ℝ)
    (lambda_ : ℝ) : ℝ :=
  let h0 := (feed_forward theta1 theta2 X).1
  let c := ∑ i, ∑ j, (y i j * Real.log (clampUnit (h0 i j)) +
    (1 - y i j) * Real.log (1 - clampUnit (h0 i j)))
  let reg_factor := (∑ i, ∑ j : Fin inp, (theta1 i j.succ) ^ 2) +
    (∑ i, ∑ j : Fin hid, (theta2 i j.succ) ^ 2)
  (-c / (m : ℝ)) + (lambda_ * reg_factor / (2 * (m : ℝ)))

lemma sigmoid_neg30_lt : sigmoid (-30) < 1 / 10 ^ 12 := by
  unfold sigmoid
  rw [neg_neg]
  have h2 : (2.7 : ℝ) < Real.exp 1 := by
    have := Real.exp_one_gt_d9; linarith
  have h4 : Real.exp 30 = Real.exp 1 ^ 30 := by
    rw [← Real.exp_nat_mul]; norm_num
  have h3 : (2.7 : ℝ) ^ 30 < Real.exp 1 ^ 30 :=
    pow_lt_pow_left₀ h2 (by norm_num) (by norm_num)
  have h5 : (10 : ℝ) ^ 12 < (2.7 : ℝ) ^ 30 := by norm_num
  have h1 : (10 : ℝ) ^ 12 < Real.exp 30 := by linarith
  have := one_div_lt_one_div_of_lt (show (0 : ℝ) < 10 ^ 12 by positivity)
    (show (10 : ℝ) ^ 12 < 1 + Real.exp 30 by linarith)
  exact this

lemma clampUnit_sigmoid_neg30 : clampUnit (sigmoid (-30)) = 1 / 10 ^ 12 := by
  unfold clampUnit
  have h := sigmoid_neg30_lt
  have hpos := sigmoid_pos (-30)
  rw [min_eq_right (by nlinarith : sigmoid (-30) ≤ 1 - 1 / 10 ^ 12),
    max_eq_left (le_of_lt h)]

/-- The 1×2 first-layer weights used for the C3 evaluation. -/
def th1c : Matrix (Fin 1) (Fin 2) ℝ := !![0, 0]

/-- The 1×2 second-layer weights used for the C3 evaluation; the bias weight
-30 drives the final prediction to sigmoid (-30) < 1e-12. -/
def th2c : Matrix (Fin 1) (Fin 2) ℝ := !![-30, 0]

lemma h0_c3 : (feed_forward th1c th2c !![(0 : ℝ)]).1 0 0 = sigmoid (-30) := by
  rw [feed_forward_a3]
  show sigmoid ((addOnes (sigmoidM (addOnes !![(0 : ℝ)] * th1c.transpose)) *
    th2c.transpose) 0 0) = _
  congr 1
  rw [Matrix.mul_apply, Fin.sum_univ_two]
  simp [addOnes, sigmoidM, th2c, Matrix.transpose_apply]

lemma cost_c3 : cost th1c th2c !![(0 : ℝ)] !![(1 : ℝ)] 0 =
    -Real.log (sigmoid (-30)) := by
  simp only [cost, Fin.sum_univ_one, h0_c3]
  simp [th1c, th2c]

lemma costClamped_c3 : costClamped th1c th2c !![(0 : ℝ)] !![(1 : ℝ)] 0 =
    -Real.log (1 / 10 ^ 12) := by
  simp only [costClamped, Fin.sum_univ_one, h0_c3, clampUnit_sigmoid_neg30]
  simp [th1c, th2c]

/-- C3: the claim is false of the source — `cost` takes logarithms of the
raw predictions with no clamping.  At weights th1c, th2c, input [[0]],
target [[1]], λ = 0 the prediction is sigmoid (-30) < 1e-12 and the source
cost differs from the spec-mandated clamped cost. -/
theorem cost_has_no_clamping :
    cost th1c th2c !![(0 : ℝ)] !![(1 : ℝ)] 0 ≠
      costClamped th1c th2c !![(0 : ℝ)] !![(1 : ℝ)] 0 := by
  rw [cost_c3, costClamped_c3]
  have hlt : Real.log (sigmoid (-30)) < Real.log (1 / 10 ^ 12) :=
    Real.log_lt_log (sigmoid_pos _) sigmoid_neg30_lt
  intro hEq
  rw [neg_inj] at hEq
  exact absurd hEq (ne_of_lt hlt)

/-- The mutable environment of `backprop`'s per-example loop: every numpy
array that is in scope in the Python loop body.  Each loop iteration may in
principle write through any of these references; the translation `bpStep`
shows that only `grad1` and `grad2` are written. -/
structure BPState (m inp hid outp : ℕ) where
  theta1 : Matrix (Fin hid) (Fin (inp + 1)) ℝ
  theta2 : Matrix (Fin outp) (Fin (hid + 1)) ℝ
  X : Matrix (Fin m) (Fin inp) ℝ
  y : Matrix (Fin m) (Fin outp) ℝ
  a1 : Matrix (Fin m) (Fin (inp + 1)) ℝ
  a2 : Matrix (Fin m) (Fin (hid + 1)) ℝ
  a3 : Matrix (Fin m) (Fin outp) ℝ
  grad1 : Matrix (Fin hid) (Fin (inp + 1)) ℝ
  grad2 : Matrix (Fin outp) (Fin (hid + 1)) ℝ

/-- One iteration of the `for i in range(m)` loop of `backprop`:
`d3 = a3[i] - y[i]`, `gZ = a2[i]*(1-a2[i])`, `d2 = (d3 @ theta2 * gZ)[:, 1:]`
(the 1×k row `d3` and 1×(h+1) rows are modelled as vectors indexed by their
column), then `grad1 += d2.T @ a1[i]` and `grad2 += d3.T @ a2[i]`. -/
noncomputable def bpStep {m inp hid outp : ℕ}
    (s : BPState m inp hid outp) (i : Fin m) : BPState m inp hid outp :=
  let d3 : Fin outp → ℝ := fun j => s.a3 i j - s.y i j
  let gZ : Fin (hid + 1) → ℝ := fun j => s.a2 i j * (1 - s.a2 i j)
  let d2 : Fin (hid + 1) → ℝ := fun j => (∑ p, d3 p * s.theta2 p j) * gZ j
  let d2drop : Fin hid → ℝ := fun j => d2 j.succ
  ⟨s.theta1, s.theta2, s.X, s.y, s.a1, s.a2, s.a3,
    fun p q => s.grad1 p q + d2drop p * s.a1 i q,
    fun p q => s.grad2 p q + d3 p * s.a2 i q⟩

/-- Embedding of `backprop` from Practica5/p5/nn.py, exposing the final
contents of every array as the fourth component (the Python function
returns only the first three).  The loop is a fold of `bpStep` over
`range(m)`; afterwards the bias column of each gradient is divided by `m`
and the remaining columns are set to `(grad + lambda_ * theta) / m`. -/
noncomputable def backpropRun {m inp hid outp : ℕ}
    (theta1 : Matrix (Fin hid) (Fin (inp + 1)) ℝ)
    (theta2 : Matrix (Fin outp) (Fin (hid + 1)) ℝ)
    (X : Matrix (Fin m) (Fin inp) ℝ)
    (y : Matrix (Fin m) (Fin outp) ℝ)
    (lambda_ : ℝ) :
    ℝ × Matrix (Fin hid) (Fin (inp + 1)) ℝ ×
      Matrix (Fin outp) (Fin (hid + 1)) ℝ × BPState m inp hid outp :=
  let J := cost theta1 theta2 X y lambda_
  let ff := feed_forward theta1 theta2 X
  let s0 : BPState m inp hid outp := ⟨theta1, theta2, X, y, ff.2.2, ff.2.1, ff.1, 0, 0⟩
  let s1 := (List.finRange m).foldl bpStep s0
  let grad1 : Matrix (Fin hid) (Fin (inp + 1)) ℝ := fun p =>
    Fin.cons (s1.grad1 p 0 / (m : ℝ))
      (fun q => (s1.grad1 p q.succ + lambda_ * theta1 p q.succ) / (m : ℝ))
  let grad2 : Matrix (Fin outp) (Fin (hid + 1)) ℝ := fun p =>
    Fin.cons (s1.grad2 p 0 / (m : ℝ))
      (fun q => (s1.grad2 p q.succ + lambda_ * theta2 p q.succ) / (m : ℝ))
  (J, grad1, grad2,
    ⟨s1.theta1, s1.theta2, s1.X, s1.y, s1.a1, s1.a2, s1.a3, grad1, grad2⟩)

/-- The `(J, grad1, grad2)` triple actually returned by the Python
`backprop`. -/
noncomputable def backprop {m inp hid outp : ℕ}
    (theta1 : Matrix (Fin hid) (Fin (inp + 1)) ℝ)
    (theta2 : Matrix (Fin outp) (Fin (hid + 1)) ℝ)
    (X : Matrix (Fin m) (Fin inp) ℝ)
    (y : Matrix (Fin m) (Fin outp) ℝ)
    (lambda_ : ℝ) :
    ℝ × Matrix (Fin hid) (Fin (inp + 1)) ℝ ×
      Matrix (Fin outp) (Fin (hid + 1)) ℝ :=
  ((backpropRun theta1 theta2 X y lambda_).1,
   (backpropRun theta1 theta2 X y lambda_).2.1,
   (backpropRun theta1 theta2 X y lambda_).2.2.1)

lemma bpStep_theta1 {m inp hid outp : ℕ} (s : BPState m inp hid outp)
    (i : Fin m) : (bpStep s i).theta1 = s.theta1 := rfl

lemma bpStep_theta2 {m inp hid outp : ℕ} (s : BPState m inp hid outp)
    (i : Fin m) : (bpStep s i).theta2 = s.theta2 := rfl

lemma bpStep_X {m inp hid outp : ℕ} (s : BPState m inp hid outp)
    (i : Fin m) : (bpStep s i).X = s.X := rfl

lemma bpStep_y {m inp hid outp : ℕ} (s : BPState m inp hid outp)
    (i : Fin m) : (bpStep s i).y = s.y := rfl

lemma bpStep_a1 {m inp hid outp : ℕ} (s : BPState m inp hid outp)
    (i : Fin m) : (bpStep s i).a1 = s.a1 := rfl

lemma bpStep_a2 {m inp hid outp : ℕ} (s : BPState m inp hid outp)
    (i : Fin m) : (bpStep s i).a2 = s.a2 := rfl

lemma bpStep_a3 {m inp hid outp : ℕ} (s : BPState m inp hid outp)
    (i : Fin m) : (bpStep s i).a3 = s.a3 := rfl

lemma bpStep_grad1 {m inp hid outp : ℕ} (s : BPState m inp hid outp)
    (i : Fin m) (p : Fin hid) (q : Fin (inp + 1)) :
    (bpStep s i).grad1 p q = s.grad1 p q +
      ((∑ j, (s.a3 i j - s.y i j) * s.theta2 j p.succ) *
        (s.a2 i p.succ * (1 - s.a2 i p.succ))) * s.a1 i q := rfl

lemma bpStep_grad2 {m inp hid outp : ℕ} (s : BPState m inp hid outp)
    (i : Fin m) (p : Fin outp) (q : Fin (hid + 1)) :
    (bpStep s i).grad2 p q = s.grad2 p q +
      (s.a3 i p - s.y i p) * s.a2 i q := rfl

/-- The loop only writes `grad1` and `grad2`: every other field of the
state survives any fold of `bpStep` unchanged. -/
lemma bpFold_frame {m inp hid outp : ℕ} (l : List (Fin m)) :
    ∀ s : BPState m inp hid outp,
      (l.foldl bpStep s).theta1 = s.theta1 ∧
      (l.foldl bpStep s).theta2 = s.theta2 ∧
      (l.foldl bpStep s).X = s.X ∧
      (l.foldl bpStep s).y = s.y ∧
      (l.foldl bpStep s).a1 = s.a1 ∧
      (l.foldl bpStep s).a2 = s.a2 ∧
      (l.foldl bpStep s).a3 = s.a3 := by
  induction l with
  | nil => exact fun s => ⟨rfl, rfl, rfl, rfl, rfl, rfl, rfl⟩
  | cons a t ih =>
    intro s
    simpa using ih (bpStep s a)

/-- Accumulated value of `grad1` after folding the loop body over any list
of example indices: the entrywise sum of the outer products `d2ᵀ · a1[i]`. -/
lemma bpFold_grad1 {m inp hid outp : ℕ} (l : List (Fin m)) :
    ∀ (s : BPState m inp hid outp) (p : Fin hid) (q : Fin (inp + 1)),
      (l.foldl bpStep s).grad1 p q = s.grad1 p q +
        (l.map (fun i =>
          ((∑ j, (s.a3 i j - s.y i j) * s.theta2 j p.succ) *
            (s.a2 i p.succ * (1 - s.a2 i p.succ))) * s.a1 i q)).sum := by
  induction l with
  | nil => intro s p q; simp
  | cons a t ih =>
    intro s p q
    rw [List.foldl_cons, ih (bpStep s a) p q, List.map_cons, List.sum_cons]
    simp only [bpStep_grad1, bpStep_a1, bpStep_a2, bpStep_a3, bpStep_y,
      bpStep_theta2]
    ring

/-- Accumulated value of `grad2` after folding the loop body over any list
of example indices: the entrywise sum of the outer products `d3ᵀ · a2[i]`. -/
lemma bpFold_grad2 {m inp hid outp : ℕ} (l : List (Fin m)) :
    ∀ (s : BPState m inp hid outp) (p : Fin outp) (q : Fin (hid + 1)),
      (l.foldl bpStep s).grad2 p q = s.grad2 p q +
        (l.map (fun i => (s.a3 i p - s.y i p) * s.a2 i q)).sum := by
  induction l with
  | nil => intro s p q; simp
  | cons a t ih =>
    intro s p q
    rw [List.foldl_cons, ih (bpStep s a) p q, List.map_cons, List.sum_cons]
    simp only [bpStep_grad2, bpStep_a2, bpStep_a3, bpStep_y]
    ring

/-- The initial loop state of `backprop`: the four input arrays, the cached
activations from `feed_forward`, and the two zero-initialized gradient
accumulators. -/
noncomputable def bpInit {m inp hid outp : ℕ}
    (theta1 : Matrix (Fin hid) (Fin (inp + 1)) ℝ)
    (theta2 : Matrix (Fin outp) (Fin (hid + 1)) ℝ)
    (X : Matrix (Fin m) (Fin inp) ℝ)
    (y : Matrix (Fin m) (Fin outp) ℝ) : BPState m inp hid outp :=
  ⟨theta1, theta2, X, y, (feed_forward theta1 theta2 X).2.2,
    (feed_forward theta1 theta2 X).2.1, (feed_forward theta1 theta2 X).1, 0, 0⟩

lemma backprop_grad1_apply {m inp hid outp : ℕ}
    (theta1 : Matrix (Fin hid) (Fin (inp + 1)) ℝ)
    (theta2 : Matrix (Fin outp) (Fin (hid + 1)) ℝ)
    (X : Matrix (Fin m) (Fin inp) ℝ)
    (y : Matrix (Fin m) (Fin outp) ℝ)
    (lambda_ : ℝ) :
    (backprop theta1 theta2 X y lambda_).2.1 = fun p =>
      Fin.cons
        (((List.finRange m).foldl bpStep (bpInit theta1 theta2 X y)).grad1 p 0 /
          (m : ℝ))
        (fun q =>
          (((List.finRange m).foldl bpStep (bpInit theta1 theta2 X y)).grad1 p
              q.succ + lambda_ * theta1 p q.succ) / (m : ℝ)) := rfl

lemma backprop_grad2_apply {m inp hid outp : ℕ}
    (theta1 : Matrix (Fin hid) (Fin (inp + 1)) ℝ)
    (theta2 : Matrix (Fin outp) (Fin (hid + 1)) ℝ)
    (X : Matrix (Fin m) (Fin inp) ℝ)
    (y : Matrix (Fin m) (Fin outp) ℝ)
    (lambda_ : ℝ) :
    (backprop theta1 theta2 X y lambda_).2.2 = fun p =>
      Fin.cons
        (((List.finRange m).foldl bpStep (bpInit theta1 theta2 X y)).grad2 p 0 /
          (m : ℝ))
        (fun q =>
          (((List.finRange m).foldl bpStep (bpInit theta1 theta2 X y)).grad2 p
              q.succ + lambda_ * theta2 p q.succ) / (m : ℝ)) := rfl

lemma bpInit_grad1 {m inp hid outp : ℕ}
    (theta1 : Matrix (Fin hid) (Fin (inp + 1)) ℝ)
    (theta2 : Matrix (Fin outp) (Fin (hid + 1)) ℝ)
    (X : Matrix (Fin m) (Fin inp) ℝ) (y : Matrix (Fin m) (Fin outp) ℝ) :
    (bpInit theta1 theta2 X y).grad1 = 0 := rfl

lemma bpInit_grad2 {m inp hid outp : ℕ}
    (theta1 : Matrix (Fin hid) (Fin (inp + 1)) ℝ)
    (theta2 : Matrix (Fin outp) (Fin (hid + 1)) ℝ)
    (X : Matrix (Fin m) (Fin inp) ℝ) (y : Matrix (Fin m) (Fin outp) ℝ) :
    (bpInit theta1 theta2 X y).grad2 = 0 := rfl

/-- The output-layer error of the spec's backpropagation formula:
`d3 = a3[i] - Y[i]`. -/
noncomputable def d3spec {m inp hid outp : ℕ}
    (theta1 : Matrix (Fin hid) (Fin (inp + 1)) ℝ)
    (theta2 : Matrix (Fin outp) (Fin (hid + 1)) ℝ)
    (X : Matrix (Fin m) (Fin inp) ℝ)
    (y : Matrix (Fin m) (Fin outp) ℝ)
    (i : Fin m) (j : Fin outp) : ℝ :=
  (feed_forward theta1 theta2 X).1 i j - y i j

/-- The hidden-layer error of the spec's backpropagation formula:
`d2 = (d3 · θ₂) ⊙ (a2[i] ⊙ (1 - a2[i]))` with its first (bias) column
dropped, so component `p` reads column `p+1`. -/
noncomputable def d2spec {m inp hid outp : ℕ}
    (theta1 : Matrix (Fin hid) (Fin (inp + 1)) ℝ)
    (theta2 : Matrix (Fin outp) (Fin (hid + 1)) ℝ)
    (X : Matrix (Fin m) (Fin inp) ℝ)
    (y : Matrix (Fin m) (Fin outp) ℝ)
    (i : Fin m) (p : Fin hid) : ℝ :=
  (∑ j, d3spec theta1 theta2 X y i j * theta2 j p.succ) *
    ((feed_forward theta1 theta2 X).2.1 i p.succ *
      (1 - (feed_forward theta1 theta2 X).2.1 i p.succ))

/-- The gradient for θ₁ exactly as the claim's formula states it: the outer
products `d2ᵀ · a1[i]` summed over all examples, the bias column then
divided by `m`, and the non-bias columns set to `(sum + λ·θ1)/m`. -/
noncomputable def grad1Spec {m inp hid outp : ℕ}
    (theta1 : Matrix (Fin hid) (Fin (inp + 1)) ℝ)
    (theta2 : Matrix (Fin outp) (Fin (hid + 1)) ℝ)
    (X : Matrix (Fin m) (Fin inp) ℝ)
    (y : Matrix (Fin m) (Fin outp) ℝ)
    (lambda_ : ℝ) : Matrix (Fin hid) (Fin (inp + 1)) ℝ := fun p =>
  Fin.cons
    ((∑ i, d2spec theta1 theta2 X y i p *
        (feed_forward theta1 theta2 X).2.2 i 0) / (m : ℝ))
    (fun q => ((∑ i, d2spec theta1 theta2 X y i p *
        (feed_forward theta1 theta2 X).2.2 i q.succ) +
      lambda_ * theta1 p q.succ) / (m : ℝ))

/-- The gradient for θ₂ exactly as the claim's formula states it: the outer
products `d3ᵀ · a2[i]` summed over all examples, then finalized as for
`grad1Spec`. -/
noncomputable def grad2Spec {m inp hid outp : ℕ}
    (theta1 : Matrix (Fin hid) (Fin (inp + 1)) ℝ)
    (theta2 : Matrix (Fin outp) (Fin (hid + 1)) ℝ)
    (X : Matrix (Fin m) (Fin inp) ℝ)
    (y : Matrix (Fin m) (Fin outp) ℝ)
    (lambda_ : ℝ) : Matrix (Fin outp) (Fin (hid + 1)) ℝ := fun p =>
  Fin.cons
    ((∑ i, d3spec theta1 theta2 X y i p *
        (feed_forward theta1 theta2 X).2.1 i 0) / (m : ℝ))
    (fun q => ((∑ i, d3spec theta1 theta2 X y i p *
        (feed_forward theta1 theta2 X).2.1 i q.succ) +
      lambda_ * theta2 p q.succ) / (m : ℝ))

/-- One-hot encoding: every row of Y has a single 1 and 0 elsewhere. -/
def IsOneHot {m outp : ℕ} (y : Matrix (Fin m) (Fin outp) ℝ) : Prop :=
  ∀ i, ∃ j, y i j = 1 ∧ ∀ j2, j2 ≠ j → y i j2 = 0

/-- C1: for every valid input (shapes carried by the types, m ≥ 1, one-hot
Y), the gradients returned by `backprop` equal the specified per-example
formula: `d3 = a3[i] - Y[i]`, `d2 = (d3·θ₂)⊙(a2⊙(1-a2))` with the bias
column dropped, outer products summed over all examples, bias column
divided by m and the remaining columns set to `(grad + λ·θ)/m`. -/
theorem backprop_grad_formula {m inp hid outp : ℕ}
    (theta1 : Matrix (Fin hid) (Fin (inp + 1)) ℝ)
    (theta2 : Matrix (Fin outp) (Fin (hid + 1)) ℝ)
    (X : Matrix (Fin m) (Fin inp) ℝ)
    (y : Matrix (Fin m) (Fin outp) ℝ)
    (lambda_ : ℝ)
    (hm : 0 < m) (hy : IsOneHot y) :
    (backprop theta1 theta2 X y lambda_).2.1 =
      grad1Spec theta1 theta2 X y lambda_ ∧
    (backprop theta1 theta2 X y lambda_).2.2 =
      grad2Spec theta1 theta2 X y lambda_ := by
  constructor
  · rw [backprop_grad1_apply]
    funext p q
    refine Fin.cases ?_ (fun q2 => ?_) q
    · show _ / (m : ℝ) = grad1Spec theta1 theta2 X y lambda_ p 0
      rw [bpFold_grad1, bpInit_grad1, Matrix.zero_apply, zero_add,
        ← Fin.sum_univ_def]
      rfl
    · show (_ + lambda_ * theta1 p q2.succ) / (m : ℝ) =
        grad1Spec theta1 theta2 X y lambda_ p q2.succ
      rw [bpFold_grad1, bpInit_grad1, Matrix.zero_apply, zero_add,
        ← Fin.sum_univ_def]
      rfl
  · rw [backprop_grad2_apply]
    funext p q
    refine Fin.cases ?_ (fun q2 => ?_) q
    · show _ / (m : ℝ) = grad2Spec theta1 theta2 X y lambda_ p 0
      rw [bpFold_grad2, bpInit_grad2, Matrix.zero_apply, zero_add,
        ← Fin.sum_univ_def]
      rfl
    · show (_ + lambda_ * theta2 p q2.succ) / (m : ℝ) =
        grad2Spec theta1 theta2 X y lambda_ p q2.succ
      rw [bpFold_grad2, bpInit_grad2, Matrix.zero_apply, zero_add,
        ← Fin.sum_univ_def]
      rfl

/-- Witness for C1: a concrete one-example network with zero weights and
regularization 2. -/
theorem backprop_grad_formula_witness :
    (0 < 1 ∧ IsOneHot !![(1 : ℝ)]) ∧
    ((backprop (0 : Matrix (Fin 1) (Fin 2) ℝ) (0 : Matrix (Fin 1) (Fin 2) ℝ)
        !![(0 : ℝ)] !![(1 : ℝ)] 2).2.1 =
      grad1Spec (0 : Matrix (Fin 1) (Fin 2) ℝ) (0 : Matrix (Fin 1) (Fin 2) ℝ)
        !![(0 : ℝ)] !![(1 : ℝ)] 2 ∧
     (backprop (0 : Matrix (Fin 1) (Fin 2) ℝ) (0 : Matrix (Fin 1) (Fin 2) ℝ)
        !![(0 : ℝ)] !![(1 : ℝ)] 2).2.2 =
      grad2Spec (0 : Matrix (Fin 1) (Fin 2) ℝ) (0 : Matrix (Fin 1) (Fin 2) ℝ)
        !![(0 : ℝ)] !![(1 : ℝ)] 2) := by
  have hy : IsOneHot !![(1 : ℝ)] := by
    intro i
    refine ⟨0, ?_, ?_⟩
    · fin_cases i; simp
    · intro j2 hj2; exact absurd (Subsingleton.elim j2 0) hj2
  exact ⟨⟨Nat.one_pos, hy⟩,
    backprop_grad_formula (0 : Matrix (Fin 1) (Fin 2) ℝ)
      (0 : Matrix (Fin 1) (Fin 2) ℝ) !![(0 : ℝ)] !![(1 : ℝ)] 2 Nat.one_pos hy⟩

/-- C9: backprop never writes to its inputs — after it returns, the final
contents of theta1, theta2, X and Y (tracked by the state record through
the accumulation loop and the finalization) equal the initial ones. -/
theorem backprop_preserves_inputs {m inp hid outp : ℕ}
    (theta1 : Matrix (Fin hid) (Fin (inp + 1)) ℝ)
    (theta2 : Matrix (Fin outp) (Fin (hid + 1)) ℝ)
    (X : Matrix (Fin m) (Fin inp) ℝ)
    (y : Matrix (Fin m) (Fin outp) ℝ)
    (lambda_ : ℝ) :
    ((backpropRun theta1 theta2 X y lambda_).2.2.2).theta1 = theta1 ∧
    ((backpropRun theta1 theta2 X y lambda_).2.2.2).theta2 = theta2 ∧
    ((backpropRun theta1 theta2 X y lambda_).2.2.2).X = X ∧
    ((backpropRun theta1 theta2 X y lambda_).2.2.2).y = y := by
  obtain ⟨f1, f2, f3, f4, -, -, -⟩ :=
    bpFold_frame (List.finRange m) (bpInit theta1 theta2 X y)
  exact ⟨f1, f2, f3, f4⟩

/-- The loop of `gradient` from Practica5/p5/nn.py.  The state is the
triple (last computed J, theta1, theta2); J starts out unbound (`none`,
matching the Python local variable J before its first assignment).  Each
iteration calls `backprop` and performs the in-place updates
`theta1 -= alpha * grad1`, `theta2 -= alpha * grad2`. -/
noncomputable def gradLoop {m inp hid outp : ℕ}
    (X : Matrix (Fin m) (Fin inp) ℝ) (y : Matrix (Fin m) (Fin outp) ℝ)
    (alpha lambda_ : ℝ) :
    ℕ → Option ℝ × Matrix (Fin hid) (Fin (inp + 1)) ℝ ×
      Matrix (Fin outp) (Fin (hid + 1)) ℝ →
    Option ℝ × Matrix (Fin hid) (Fin (inp + 1)) ℝ ×
      Matrix (Fin outp) (Fin (hid + 1)) ℝ
  | 0, s => s
  | t + 1, s =>
    let r := backprop s.2.1 s.2.2 X y lambda_
    gradLoop X y alpha lambda_ t
      (some r.1, s.2.1 - alpha • r.2.1, s.2.2 - alpha • r.2.2)

/-- Embedding of `gradient` from Practica5/p5/nn.py: run the loop
`num_iters` times starting from unbound J, then `return J, theta1, theta2`.
If the loop body never ran (num_iters = 0, i.e. `range` of a non-positive
count is empty) the Python `return J` raises UnboundLocalError, modelled by
`none`. -/
noncomputable def gradient {m inp hid outp : ℕ}
    (theta1 : Matrix (Fin hid) (Fin (inp + 1)) ℝ)
    (theta2 : Matrix (Fin outp) (Fin (hid + 1)) ℝ)
    (X : Matrix (Fin m) (Fin inp) ℝ) (y : Matrix (Fin m) (Fin outp) ℝ)
    (num_iters : ℕ) (alpha lambda_ : ℝ) :
    Option (ℝ × Matrix (Fin hid) (Fin (inp + 1)) ℝ ×
      Matrix (Fin outp) (Fin (hid + 1)) ℝ) :=
  let s := gradLoop X y alpha lambda_ num_iters (none, theta1, theta2)
  Option.map (fun J => (J, s.2.1, s.2.2)) s.1

/-- One gradient-descent parameter update as the spec describes it: call
Backpropagation, then `θ ← θ − α·grad` for both matrices. -/
noncomputable def gdStep {m inp hid outp : ℕ}
    (X : Matrix (Fin m) (Fin inp) ℝ) (y : Matrix (Fin m) (Fin outp) ℝ)
    (alpha lambda_ : ℝ)
    (p : Matrix (Fin hid) (Fin (inp + 1)) ℝ ×
      Matrix (Fin outp) (Fin (hid + 1)) ℝ) :
    Matrix (Fin hid) (Fin (inp + 1)) ℝ ×
      Matrix (Fin outp) (Fin (hid + 1)) ℝ :=
  let r := backprop p.1 p.2 X y lambda_
  (p.1 - alpha • r.2.1, p.2 - alpha • r.2.2)

lemma gradLoop_succ {m inp hid outp : ℕ}
    (X : Matrix (Fin m) (Fin inp) ℝ) (y : Matrix (Fin m) (Fin outp) ℝ)
    (alpha lambda_ : ℝ) : ∀ (t : ℕ) (j0 : Option ℝ)
    (p : Matrix (Fin hid) (Fin (inp + 1)) ℝ ×
      Matrix (Fin outp) (Fin (hid + 1)) ℝ),
    gradLoop X y alpha lambda_ (t + 1) (j0, p.1, p.2) =
      (some (backprop ((gdStep X y alpha lambda_)^[t] p).1
          ((gdStep X y alpha lambda_)^[t] p).2 X y lambda_).1,
        ((gdStep X y alpha lambda_)^[t + 1] p).1,
        ((gdStep X y alpha lambda_)^[t + 1] p).2) := by
  intro t
  induction t with
  | zero =>
    intro j0 p
    simp only [gradLoop, Function.iterate_zero, Function.iterate_one, id]
    rfl
  | succ t ih =>
    intro j0 p
    show gradLoop X y alpha lambda_ (t + 1) _ = _
    have step : (some (backprop p.1 p.2 X y lambda_).1,
        p.1 - alpha • (backprop p.1 p.2 X y lambda_).2.1,
        p.2 - alpha • (backprop p.1 p.2 X y lambda_).2.2) =
        (some (backprop p.1 p.2 X y lambda_).1,
          (gdStep X y alpha lambda_ p).1, (gdStep X y alpha lambda_ p).2) := rfl
    rw [step, ih (some (backprop p.1 p.2 X y lambda_).1)
      (gdStep X y alpha lambda_ p)]
    simp only [← Function.iterate_succ_apply]

/-- C5: for num_iters ≥ 1 the training loop performs exactly `num_iters`
iterations, each calling backprop and then updating both weight matrices by
`θ ← θ − α·grad`, with no convergence check; it returns the J of the last
iteration (the one computed at the parameters reached after num_iters − 1
updates) together with the parameters after all `num_iters` updates. -/
theorem gradient_fixed_iterations {m inp hid outp : ℕ}
    (theta1 : Matrix (Fin hid) (Fin (inp + 1)) ℝ)
    (theta2 : Matrix (Fin outp) (Fin (hid + 1)) ℝ)
    (X : Matrix (Fin m) (Fin inp) ℝ) (y : Matrix (Fin m) (Fin outp) ℝ)
    (num_iters : ℕ) (alpha lambda_ : ℝ)
    (hn : 1 ≤ num_iters) :
    gradient theta1 theta2 X y num_iters alpha lambda_ =
      some ((backprop
          ((gdStep X y alpha lambda_)^[num_iters - 1] (theta1, theta2)).1
          ((gdStep X y alpha lambda_)^[num_iters - 1] (theta1, theta2)).2
          X y lambda_).1,
        ((gdStep X y alpha lambda_)^[num_iters] (theta1, theta2)).1,
        ((gdStep X y alpha lambda_)^[num_iters] (theta1, theta2)).2) := by
  obtain ⟨t, rfl⟩ : ∃ t, num_iters = t + 1 :=
    ⟨num_iters - 1, (Nat.succ_pred_eq_of_pos hn).symm⟩
  unfold gradient
  rw [show ((none : Option ℝ), theta1, theta2) =
    ((none : Option ℝ), (theta1, theta2).1, (theta1, theta2).2) from rfl]
  rw [gradLoop_succ X y alpha lambda_ t none (theta1, theta2)]
  simp

/-- Witness for C5 with one iteration on a one-example zero-weight
network. -/
theorem gradient_fixed_iterations_witness :
    1 ≤ 1 ∧
    gradient (0 : Matrix (Fin 1) (Fin 2) ℝ) (0 : Matrix (Fin 1) (Fin 2) ℝ)
        !![(0 : ℝ)] !![(1 : ℝ)] 1 1 0 =
      some ((backprop
          ((gdStep !![(0 : ℝ)] !![(1 : ℝ)] 1 0)^[1 - 1]
            ((0 : Matrix (Fin 1) (Fin 2) ℝ), (0 : Matrix (Fin 1) (Fin 2) ℝ))).1
          ((gdStep !![(0 : ℝ)] !![(1 : ℝ)] 1 0)^[1 - 1]
            ((0 : Matrix (Fin 1) (Fin 2) ℝ), (0 : Matrix (Fin 1) (Fin 2) ℝ))).2
          !![(0 : ℝ)] !![(1 : ℝ)] 0).1,
        ((gdStep !![(0 : ℝ)] !![(1 : ℝ)] 1 0)^[1]
          ((0 : Matrix (Fin 1) (Fin 2) ℝ), (0 : Matrix (Fin 1) (Fin 2) ℝ))).1,
        ((gdStep !![(0 : ℝ)] !![(1 : ℝ)] 1 0)^[1]
          ((0 : Matrix (Fin 1) (Fin 2) ℝ), (0 : Matrix (Fin 1) (Fin 2) ℝ))).2) :=
  ⟨le_refl 1, gradient_fixed_iterations (0 : Matrix (Fin 1) (Fin 2) ℝ)
    (0 : Matrix (Fin 1) (Fin 2) ℝ) !![(0 : ℝ)] !![(1 : ℝ)] 1 1 0 (le_refl 1)⟩

lemma backprop_fst {m inp hid outp : ℕ}
    (theta1 : Matrix (Fin hid) (Fin (inp + 1)) ℝ)
    (theta2 : Matrix (Fin outp) (Fin (hid + 1)) ℝ)
    (X : Matrix (Fin m) (Fin inp) ℝ) (y : Matrix (Fin m) (Fin outp) ℝ)
    (lambda_ : ℝ) :
    (backprop theta1 theta2 X y lambda_).1 = cost theta1 theta2 X y lambda_ :=
  rfl

/-- C10: the J returned by `gradient` is the cost evaluated at the
parameters as they were at the start of the last iteration, i.e. after
`num_iters - 1` updates — not the cost of the returned parameters. -/
theorem gradient_J_lags_final_update {m inp hid outp : ℕ}
    (theta1 : Matrix (Fin hid) (Fin (inp + 1)) ℝ)
    (theta2 : Matrix (Fin outp) (Fin (hid + 1)) ℝ)
    (X : Matrix (Fin m) (Fin inp) ℝ) (y : Matrix (Fin m) (Fin outp) ℝ)
    (num_iters : ℕ) (alpha lambda_ : ℝ)
    (hn : 1 ≤ num_iters) :
    Option.map Prod.fst (gradient theta1 theta2 X y num_iters alpha lambda_) =
      some (cost
        ((gdStep X y alpha lambda_)^[num_iters - 1] (theta1, theta2)).1
        ((gdStep X y alpha lambda_)^[num_iters - 1] (theta1, theta2)).2
        X y lambda_) := by
  obtain ⟨t, rfl⟩ : ∃ t, num_iters = t + 1 :=
    ⟨num_iters - 1, (Nat.succ_pred_eq_of_pos hn).symm⟩
  unfold gradient
  rw [show ((none : Option ℝ), theta1, theta2) =
    ((none : Option ℝ), (theta1, theta2).1, (theta1, theta2).2) from rfl]
  rw [gradLoop_succ X y alpha lambda_ t none (theta1, theta2)]
  simp [backprop_fst]

/-- Witness for C10 with two iterations on a one-example zero-weight
network. -/
theorem gradient_J_lags_final_update_witness :
    1 ≤ 2 ∧
    Option.map Prod.fst (gradient (0 : Matrix (Fin 1) (Fin 2) ℝ)
        (0 : Matrix (Fin 1) (Fin 2) ℝ) !![(0 : ℝ)] !![(1 : ℝ)] 2 1 0) =
      some (cost
        ((gdStep !![(0 : ℝ)] !![(1 : ℝ)] 1 0)^[2 - 1]
          ((0 : Matrix (Fin 1) (Fin 2) ℝ), (0 : Matrix (Fin 1) (Fin 2) ℝ))).1
        ((gdStep !![(0 : ℝ)] !![(1 : ℝ)] 1 0)^[2 - 1]
          ((0 : Matrix (Fin 1) (Fin 2) ℝ), (0 : Matrix (Fin 1) (Fin 2) ℝ))).2
        !![(0 : ℝ)] !![(1 : ℝ)] 0) :=
  ⟨by norm_num, gradient_J_lags_final_update (0 : Matrix (Fin 1) (Fin 2) ℝ)
    (0 : Matrix (Fin 1) (Fin 2) ℝ) !![(0 : ℝ)] !![(1 : ℝ)] 2 1 0 (by norm_num)⟩

lemma mul_add_lt_mul {i j r c : ℕ} (hi : i < r) (hj : j < c) :
    i * c + j < r * c := by
  calc i * c + j < i * c + c := by omega
    _ = (i + 1) * c := by ring
    _ ≤ r * c := Nat.mul_le_mul_right c hi

lemma pos_of_lt_mul {x r c : ℕ} (hx : x < r * c) : 0 < c := by
  rcases Nat.eq_zero_or_pos c with h0 | h
  · subst h0; simp at hx
  · exact h

lemma div_lt_of_lt_mul_left {x r c : ℕ} (hx : x < r * c) : x / c < r :=
  Nat.div_lt_of_lt_mul (by rwa [Nat.mul_comm])

lemma sub_lt_of_lt_add {x a b : ℕ} (hx : x < a + b) (ha : a ≤ x) :
    x - a < b := by omega

/-- Embedding of `np.reshape(theta[:t1_s[0]*t1_s[1]], (t1_s[0], t1_s[1]))`
in `backprop_min`: the first r1·c1 entries of the flat vector read
row-major as an r1×c1 matrix. -/
def unflattenA {r1 c1 r2 c2 : ℕ} (v : Fin (r1 * c1 + r2 * c2) → ℝ) :
    Matrix (Fin r1) (Fin c1) ℝ :=
  fun i j => v ⟨i.1 * c1 + j.1,
    Nat.lt_of_lt_of_le (mul_add_lt_mul i.isLt j.isLt) (Nat.le_add_right _ _)⟩

/-- Embedding of `np.reshape(theta[t1_s[0]*t1_s[1]:], (t2_s[0], t2_s[1]))`
in `backprop_min`: the remaining entries read row-major as an r2×c2
matrix. -/
def unflattenB {r1 c1 r2 c2 : ℕ} (v : Fin (r1 * c1 + r2 * c2) → ℝ) :
    Matrix (Fin r2) (Fin c2) ℝ :=
  fun i j => v ⟨r1 * c1 + (i.1 * c2 + j.1),
    Nat.add_lt_add_left (mul_add_lt_mul i.isLt j.isLt) _⟩

/-- Embedding of `np.concatenate([np.ravel(grad1), np.ravel(grad2)])` in
`backprop_min`: the row-major flattening of the first matrix followed by
that of the second. -/
def flattenPair {r1 c1 r2 c2 : ℕ} (g1 : Matrix (Fin r1) (Fin c1) ℝ)
    (g2 : Matrix (Fin r2) (Fin c2) ℝ) : Fin (r1 * c1 + r2 * c2) → ℝ :=
  fun idx =>
    if hlt : idx.1 < r1 * c1 then
      g1 ⟨idx.1 / c1, div_lt_of_lt_mul_left hlt⟩
        ⟨idx.1 % c1, Nat.mod_lt _ (pos_of_lt_mul hlt)⟩
    else
      g2 ⟨(idx.1 - r1 * c1) / c2,
          div_lt_of_lt_mul_left (sub_lt_of_lt_add idx.isLt (Nat.le_of_not_lt hlt))⟩
        ⟨(idx.1 - r1 * c1) % c2,
          Nat.mod_lt _ (pos_of_lt_mul
            (sub_lt_of_lt_add idx.isLt (Nat.le_of_not_lt hlt)))⟩

/-- Embedding of `backprop_min` from Practica5/p5/nn.py: unflatten the
parameter vector into the two weight matrices, run `backprop`, and return
the cost together with the reflattened gradients. -/
noncomputable def backprop_min {m inp hid outp : ℕ}
    (theta : Fin (hid * (inp + 1) + outp * (hid + 1)) → ℝ)
    (X : Matrix (Fin m) (Fin inp) ℝ) (y : Matrix (Fin m) (Fin outp) ℝ)
    (lambda_ : ℝ) :
    ℝ × (Fin (hid * (inp + 1) + outp * (hid + 1)) → ℝ) :=
  let theta1 := unflattenA theta
  let theta2 := unflattenB theta
  let r := backprop theta1 theta2 X y lambda_
  (r.1, flattenPair r.2.1 r.2.2)

/-- C6: the flatten/unflatten pair used by the external-optimizer adapter
is a strict inverse pair — flattening the two matrices obtained by
unflattening any flat vector of length r1·c1 + r2·c2 yields exactly that
vector. -/
theorem flatten_unflatten_id (r1 c1 r2 c2 : ℕ)
    (v : Fin (r1 * c1 + r2 * c2) → ℝ) :
    flattenPair (unflattenA v) (unflattenB v) = v := by
  funext idx
  unfold flattenPair unflattenA unflattenB
  by_cases hlt : idx.1 < r1 * c1
  · rw [dif_pos hlt]
    refine congrArg v (Fin.ext ?_)
    show idx.1 / c1 * c1 + idx.1 % c1 = idx.1
    exact Nat.div_add_mod' idx.1 c1
  · rw [dif_neg hlt]
    refine congrArg v (Fin.ext ?_)
    show r1 * c1 + ((idx.1 - r1 * c1) / c2 * c2 + (idx.1 - r1 * c1) % c2) =
      idx.1
    rw [Nat.div_add_mod', Nat.add_sub_cancel' (Nat.le_of_not_lt hlt)]

lemma bpInit_theta2' {m inp hid outp : ℕ}
    (theta1 : Matrix (Fin hid) (Fin (inp + 1)) ℝ)
    (theta2 : Matrix (Fin outp) (Fin (hid + 1)) ℝ)
    (X : Matrix (Fin m) (Fin inp) ℝ) (y : Matrix (Fin m) (Fin outp) ℝ) :
    (bpInit theta1 theta2 X y).theta2 = theta2 := rfl

lemma bpInit_y' {m inp hid outp : ℕ}
    (theta1 : Matrix (Fin hid) (Fin (inp + 1)) ℝ)
    (theta2 : Matrix (Fin outp) (Fin (hid + 1)) ℝ)
    (X : Matrix (Fin m) (Fin inp) ℝ) (y : Matrix (Fin m) (Fin outp) ℝ) :
    (bpInit theta1 theta2 X y).y = y := rfl

lemma bpInit_a2' {m inp hid outp : ℕ}
    (theta1 : Matrix (Fin hid) (Fin (inp + 1)) ℝ)
    (theta2 : Matrix (Fin outp) (Fin (hid + 1)) ℝ)
    (X : Matrix (Fin m) (Fin inp) ℝ) (y : Matrix (Fin m) (Fin outp) ℝ) :
    (bpInit theta1 theta2 X y).a2 = (feed_forward theta1 theta2 X).2.1 := rfl

lemma bpInit_a3' {m inp hid outp : ℕ}
    (theta1 : Matrix (Fin hid) (Fin (inp + 1)) ℝ)
    (theta2 : Matrix (Fin outp) (Fin (hid + 1)) ℝ)
    (X : Matrix (Fin m) (Fin inp) ℝ) (y : Matrix (Fin m) (Fin outp) ℝ) :
    (bpInit theta1 theta2 X y).a3 = (feed_forward theta1 theta2 X).1 := rfl

lemma ffz_a3 : (feed_forward (0 : Matrix (Fin 1) (Fin 2) ℝ)
    (0 : Matrix (Fin 1) (Fin 2) ℝ) !![(0 : ℝ)]).1 0 0 = 1 / 2 := by
  simp [feed_forward_a3, sigmoidM, sigmoid_zero, Matrix.mul_apply]

lemma ffz_a2_0 : (feed_forward (0 : Matrix (Fin 1) (Fin 2) ℝ)
    (0 : Matrix (Fin 1) (Fin 2) ℝ) !![(0 : ℝ)]).2.1 0 0 = 1 := by
  simp [feed_forward_a2, addOnes]

lemma ffz_a2_1 : (feed_forward (0 : Matrix (Fin 1) (Fin 2) ℝ)
    (0 : Matrix (Fin 1) (Fin 2) ℝ) !![(0 : ℝ)]).2.1 0 1 = 1 / 2 := by
  rw [feed_forward_a2]
  have h : (addOnes (sigmoidM (addOnes !![(0 : ℝ)] *
      (0 : Matrix (Fin 1) (Fin 2) ℝ).transpose))) 0 1 =
      (sigmoidM (addOnes !![(0 : ℝ)] *
        (0 : Matrix (Fin 1) (Fin 2) ℝ).transpose)) 0 0 := rfl
  rw [h]
  simp [sigmoidM, sigmoid_zero, Matrix.mul_apply]

lemma cost_z_eval : cost (0 : Matrix (Fin 1) (Fin 2) ℝ)
    (0 : Matrix (Fin 1) (Fin 2) ℝ) !![(0 : ℝ)] !![(1 : ℝ)] (-1) =
    Real.log 2 := by
  simp only [cost, Fin.sum_univ_one, ffz_a3]
  simp [Real.log_inv]

lemma backprop_z_grad1 : (backprop (0 : Matrix (Fin 1) (Fin 2) ℝ)
    (0 : Matrix (Fin 1) (Fin 2) ℝ) !![(0 : ℝ)] !![(1 : ℝ)] (-1)).2.1 = 0 := by
  rw [backprop_grad1_apply]
  funext p q
  have hF : ∀ q2 : Fin 2, ((List.finRange 1).foldl bpStep
      (bpInit (0 : Matrix (Fin 1) (Fin 2) ℝ) (0 : Matrix (Fin 1) (Fin 2) ℝ)
        !![(0 : ℝ)] !![(1 : ℝ)])).grad1 p q2 = 0 := by
    intro q2
    rw [bpFold_grad1, bpInit_grad1, Matrix.zero_apply, zero_add,
      show (List.finRange 1) = [0] from rfl]
    simp [bpInit_theta2']
  simp only [Matrix.zero_apply]
  refine Fin.cases ?_ (fun q2 => ?_) q
  · simp [hF 0]
  · simp [hF q2.succ]

lemma backprop_z_grad2 : (backprop (0 : Matrix (Fin 1) (Fin 2) ℝ)
    (0 : Matrix (Fin 1) (Fin 2) ℝ) !![(0 : ℝ)] !![(1 : ℝ)] (-1)).2.2 =
    !![-(1 : ℝ) / 2, -(1 / 4 : ℝ)] := by
  rw [backprop_grad2_apply]
  funext p q
  have hp : p = 0 := Subsingleton.elim p 0
  subst hp
  have hF : ∀ q2 : Fin 2, ((List.finRange 1).foldl bpStep
      (bpInit (0 : Matrix (Fin 1) (Fin 2) ℝ) (0 : Matrix (Fin 1) (Fin 2) ℝ)
        !![(0 : ℝ)] !![(1 : ℝ)])).grad2 0 q2 =
      -(1 / 2) * (feed_forward (0 : Matrix (Fin 1) (Fin 2) ℝ)
        (0 : Matrix (Fin 1) (Fin 2) ℝ) !![(0 : ℝ)]).2.1 0 q2 := by
    intro q2
    rw [bpFold_grad2, bpInit_grad2, Matrix.zero_apply, zero_add,
      show (List.finRange 1) = [0] from rfl]
    simp only [List.map_cons, List.map_nil, List.sum_cons, List.sum_nil,
      add_zero, bpInit_a3', bpInit_y', bpInit_a2']
    rw [ffz_a3]
    norm_num
  refine Fin.cases ?_ (fun q2 => ?_) q
  · simp [hF 0, ffz_a2_0]
    norm_num
  · simp only [Fin.cons_succ]
    have hq : q2 = 0 := Subsingleton.elim q2 0
    subst hq
    rw [show ((0 : Fin 1).succ) = (1 : Fin 2) from rfl, hF 1, ffz_a2_1]
    simp
    norm_num

/-- C8: the claim is false of the source — there is no hyperparameter
validation anywhere.  With the invalid hyperparameter λ = -1 (and one
iteration), `gradient` performs the full backpropagation and parameter
update and returns a normal result instead of failing validation before
any computation. -/
theorem gradient_no_hyperparameter_validation :
    gradient (0 : Matrix (Fin 1) (Fin 2) ℝ) (0 : Matrix (Fin 1) (Fin 2) ℝ)
        !![(0 : ℝ)] !![(1 : ℝ)] 1 1 (-1) =
      some (Real.log 2, (0 : Matrix (Fin 1) (Fin 2) ℝ),
        !![(1 : ℝ) / 2, (1 / 4 : ℝ)]) := by
  unfold gradient
  rw [show ((none : Option ℝ), (0 : Matrix (Fin 1) (Fin 2) ℝ),
      (0 : Matrix (Fin 1) (Fin 2) ℝ)) = ((none : Option ℝ),
      ((0 : Matrix (Fin 1) (Fin 2) ℝ), (0 : Matrix (Fin 1) (Fin 2) ℝ)).1,
      ((0 : Matrix (Fin 1) (Fin 2) ℝ), (0 : Matrix (Fin 1) (Fin 2) ℝ)).2)
    from rfl]
  rw [gradLoop_succ !![(0 : ℝ)] !![(1 : ℝ)] 1 (-1) 0 none
    ((0 : Matrix (Fin 1) (Fin 2) ℝ), (0 : Matrix (Fin 1) (Fin 2) ℝ))]
  simp only [Function.iterate_zero, Function.iterate_one, id_eq,
    Option.map_some]
  have h1 : (gdStep !![(0 : ℝ)] !![(1 : ℝ)] 1 (-1)
      ((0 : Matrix (Fin 1) (Fin 2) ℝ), (0 : Matrix (Fin 1) (Fin 2) ℝ))).1 =
      (0 : Matrix (Fin 1) (Fin 2) ℝ) := by
    show (0 : Matrix (Fin 1) (Fin 2) ℝ) - (1 : ℝ) •
      (backprop (0 : Matrix (Fin 1) (Fin 2) ℝ) (0 : Matrix (Fin 1) (Fin 2) ℝ)
        !![(0 : ℝ)] !![(1 : ℝ)] (-1)).2.1 = 0
    rw [backprop_z_grad1]
    simp
  have h2 : (gdStep !![(0 : ℝ)] !![(1 : ℝ)] 1 (-1)
      ((0 : Matrix (Fin 1) (Fin 2) ℝ), (0 : Matrix (Fin 1) (Fin 2) ℝ))).2 =
      !![(1 : ℝ) / 2, (1 / 4 : ℝ)] := by
    show (0 : Matrix (Fin 1) (Fin 2) ℝ) - (1 : ℝ) •
      (backprop (0 : Matrix (Fin 1) (Fin 2) ℝ) (0 : Matrix (Fin 1) (Fin 2) ℝ)
        !![(0 : ℝ)] !![(1 : ℝ)] (-1)).2.2 = !![(1 : ℝ) / 2, (1 / 4 : ℝ)]
    rw [backprop_z_grad2]
    ext i j
    fin_cases i <;> fin_cases j <;> simp <;> norm_num
  rw [backprop_fst, cost_z_eval]
  simp only [zero_add, Function.iterate_one]
  rw [h1, h2]
  rfl

end NN
